import Mathlib

/-!
Verification of the svFSGe post-processing scripts.

Shallow embedding of the pure computational cores of
`pulsatile_flow/post_steady_fluid.py`, `pulsatile_flow/post_fluid.py` and
`scripts/compare_results.py`.  Floating-point arrays are modelled as lists of
rationals (exact arithmetic); vector fields as triples; numpy reductions
(`np.mean(axis=0)`, `np.linalg.norm(axis=1)`, boolean masks, `np.argsort`,
`np.isclose`) are translated operation by operation.
-/

namespace SvFSGe

/-! ## Time aggregation (post_steady_fluid.get_results, lines 139-174) -/

/-- Elementwise column sums of a stack of equal-length rows: the additive part
of `np.mean(np.array(rows), axis=0)`. -/
def colSums : List (List ℚ) → List ℚ
  | [] => []
  | [r] => r
  | r :: rs => List.zipWith (· + ·) r (colSums rs)

/-- Elementwise mean over the time axis: `np.mean(np.array(rows), axis=0)`
for a non-empty stack `rows` of per-timestep value arrays. -/
def mean_axis0 (rows : List (List ℚ)) : List ℚ :=
  (colSums rows).map (fun s => s / (rows.length : ℚ))

/-- Windowed time-average of one (location, field) entry in `get_results`:
snapshots with index `i >= start_step` are retained
(`for i, res in enumerate(results): if i >= start_step: ...` followed by
`np.mean(data, axis=0)`). -/
def get_results_field (snaps : List (List ℚ)) (start_step : ℕ) : List ℚ :=
  mean_axis0 (snaps.drop start_step)

/-! ## post_process control flow (post_steady_fluid.post_process, lines 186-215) -/

/-- Control flow of `post_process` restricted to one extracted field: the
empty-directory check (`if not len(res): raise`) and the start-step check
(`if start_step >= len(res): raise`) both fire before any aggregation;
otherwise the windowed time-average is produced. -/
def post_process (res : List (List ℚ)) (start_step : ℕ) : Except String (List ℚ) :=
  if res.length = 0 then .error "No results found"
  else if res.length ≤ start_step then .error "Start step is beyond available steps"
  else .ok (get_results_field res start_step)

/-! ## Heartbeat overlay (post_steady_fluid.plot_wss_heartbeat_overlay,
lines 353-371, and post_fluid.plot_wss_heartbeats, lines 222-253) -/

/-- Windows plotted by the heartbeat overlay: `n_beats = len(series) //
steps_per_beat` windows, window `i` being the slice
`series[i*steps_per_beat : (i+1)*steps_per_beat]`. -/
def heartbeat_windows (series : List ℚ) (steps_per_beat : ℕ) : List (List ℚ) :=
  (List.range (series.length / steps_per_beat)).map
    (fun i => (series.drop (i * steps_per_beat)).take steps_per_beat)

/-- Unit scale applied by `plot_wss_heartbeat_overlay` before slicing:
`wss_dyne = wss_all * f_scales["wss"][0]` with scale factor 10000. -/
def wss_scale : ℚ := 10000

/-- Data series plotted by `plot_wss_heartbeat_overlay`: the unit-scaled WSS
series sliced into per-beat windows.  (`post_fluid.plot_wss_heartbeats` slices
the unscaled `wss_mid_mean` series with the same window arithmetic.) -/
def plot_wss_heartbeat_overlay (wss_all : List ℚ) (steps_per_beat : ℕ) :
    List (List ℚ) :=
  heartbeat_windows (wss_all.map (fun w => w * wss_scale)) steps_per_beat

/-! ## Geometry classifier (post_steady_fluid.get_ids, lines 42-98) -/

/-- Cylindrical coordinates of one point: (angle, radius, axial), the output
row of `xyz2cra`. -/
abbrev Coord3 := ℚ × ℚ × ℚ

/-- One axis slot of a Point Group Key: a concrete target value, or `none`
for the wildcard marker `:` of the source. -/
abbrev Slot := Option ℚ

/-- Point Group Key: (circumferential, radial, axial) slot values. -/
abbrev Loc := Slot × Slot × Slot

/-- Coordinate of a point along axis `d` (0 = angle, 1 = radius, 2 = axial):
`pts_cra[:, d]`. -/
def proj3 (d : Fin 3) (p : Coord3) : ℚ :=
  if d.val = 0 then p.1 else if d.val = 1 then p.2.1 else p.2.2

/-- Slot of a key along axis `d`. -/
def slot3 (d : Fin 3) (loc : Loc) : Slot :=
  if d.val = 0 then loc.1 else if d.val = 1 then loc.2.1 else loc.2.2

/-- Default `np.isclose(a, b)` test with numpy's default tolerances
rtol = 1e-5, atol = 1e-8: true iff `|a - b| <= atol + rtol * |b|`. -/
def np_isclose (a b : ℚ) : Bool :=
  decide (|a - b| ≤ 1 / 10 ^ 8 + (1 / 10 ^ 5) * |b|)

/-- Per-axis match used when building `chk`: a wildcard slot matches every
coordinate, a concrete slot matches by `np.isclose`. -/
def matchSlot (s : Slot) (c : ℚ) : Bool :=
  match s with
  | none => true
  | some v => np_isclose c v

/-- Conjunction of the per-axis checks:
`np.logical_and.reduce(np.array(chk))` over the non-wildcard axes. -/
def matches_loc (loc : Loc) (p : Coord3) : Bool :=
  matchSlot loc.1 p.1 && matchSlot loc.2.1 p.2.1 && matchSlot loc.2.2 p.2.2

/-- Point indices selected for one key:
`ids[loc] = np.where(np.logical_and.reduce(np.array(chk)))[0]`. -/
def get_ids_matched (pts : List Coord3) (loc : Loc) : List ℕ :=
  (List.range pts.length).filter (fun i => matches_loc loc (pts.getD i (0, 0, 0)))

/-- Matched (index, wildcard-axis coordinate) pairs for a key with wildcard
axis `d`: `crd = pts_cra[ids[loc], dim]` co-indexed with `ids[loc]`. -/
def wild_pairs (pts : List Coord3) (loc : Loc) (d : Fin 3) : List (ℕ × ℚ) :=
  (get_ids_matched pts loc).map (fun i => (i, proj3 d (pts.getD i (0, 0, 0))))

/-- Order used by `np.argsort(crd)`: compare the wildcard-axis coordinates. -/
def coordLE (a b : ℕ × ℚ) : Prop := a.2 ≤ b.2

instance : DecidableRel coordLE := fun a b => inferInstanceAs (Decidable (a.2 ≤ b.2))

instance : IsTotal (ℕ × ℚ) coordLE := ⟨fun a b => le_total a.2 b.2⟩

instance : IsTrans (ℕ × ℚ) coordLE := ⟨fun _ _ _ h1 h2 => le_trans h1 h2⟩

/-- Sorting of the matched pairs by wildcard-axis coordinate
(`sort = np.argsort(crd)` applied to ids and coordinates together). -/
def sort_by_coord (l : List (ℕ × ℚ)) : List (ℕ × ℚ) :=
  List.insertionSort coordLE l

/-- Wildcard branch of `get_ids` (lines 89-96): sort ids and coordinates by
the wildcard-axis coordinate, then
`assert len(np.unique(crd)) == len(crd)` — a data-integrity failure when the
coordinate values are not pairwise distinct. -/
def get_ids_sorted (pts : List Coord3) (loc : Loc) (d : Fin 3) :
    Except String (List ℕ × List ℚ) :=
  let pairs := wild_pairs pts loc d
  let crd := pairs.map Prod.snd
  if crd.dedup.length = crd.length then
    .ok ((sort_by_coord pairs).map Prod.fst, (sort_by_coord pairs).map Prod.snd)
  else .error "coordinates not unique"

/-- Claimed tolerance test, following the claim's words: match "within a
fixed absolute numeric tolerance of approximately 1e-9 relative to the
coordinate magnitude", i.e. `|a - b| <= 1e-9 * |b|`.  Kept only to compare
with the `np.isclose` test the source actually performs. -/
def claimed_isclose (a b : ℚ) : Bool :=
  decide (|a - b| ≤ 1 / 10 ^ 9 * |b|)

/-- Per-axis match under the claimed tolerance. -/
def claimed_matchSlot (s : Slot) (c : ℚ) : Bool :=
  match s with
  | none => true
  | some v => claimed_isclose c v

/-- Point selection under the claimed tolerance. -/
def claimed_get_ids (pts : List Coord3) (loc : Loc) : List ℕ :=
  (List.range pts.length).filter (fun i =>
    claimed_matchSlot loc.1 (pts.getD i (0, 0, 0)).1 &&
    claimed_matchSlot loc.2.1 (pts.getD i (0, 0, 0)).2.1 &&
    claimed_matchSlot loc.2.2 (pts.getD i (0, 0, 0)).2.2)

/-! ## Wall-shear extraction (post_steady_fluid.extract_wss, lines 120-136,
and extract_wss_mid_timeseries, lines 330-350) -/

/-- A 3-component vector field value. -/
abbrev Vec3 := ℚ × ℚ × ℚ

/-- Euclidean magnitude of one vector: one entry of
`np.linalg.norm(arr, axis=1)`. -/
noncomputable def norm3 (v : Vec3) : ℝ :=
  Real.sqrt ((v.1 : ℝ) ^ 2 + (v.2.1 : ℝ) ^ 2 + (v.2.2 : ℝ) ^ 2)

/-- Point-data arrays of one mesh snapshot that are relevant to the
wall-shear extraction: `None` models `not res.GetPointData().HasArray(...)`. -/
structure SnapArrays where
  wss : Option (List Vec3)
  traction : Option (List Vec3)

/-- Wall-shear magnitudes used by `extract_wss` together with a flag
recording whether the all-zero warning was printed: prefer the `WSS` array
(reduced to magnitudes), else fall back to `Traction` magnitudes, else an
all-zero array of length `npts = pts.shape[0]` plus a warning.  The function
is total: no branch raises. -/
noncomputable def extract_wss (snap : SnapArrays) (npts : ℕ) : List ℝ × Bool :=
  match snap.wss with
  | some arr => (arr.map norm3, false)
  | none =>
    match snap.traction with
    | some arr => (arr.map norm3, false)
    | none => (List.replicate npts 0, true)

/-! ## Mid-section ring average (post_fluid.extract_results_fluid,
lines 77-89) -/

/-- WSS magnitudes inside the 5% axial band around the middle cross-section:
`mid_mask = np.abs(z_coords - z_mid) < z_tol` with
`z_mid = (z_min + z_max) / 2` and `z_tol = (z_max - z_min) * 0.05`, applied
to the co-indexed magnitude array `wss_mag` (for a 1-D `WSS` array the code
uses the values themselves as magnitudes, so the band logic is exact rational
arithmetic on the magnitude array). -/
def wss_mid_band (z_coords wss_mag : List ℚ) : List ℚ :=
  let z_min := z_coords.foldl min (z_coords.headD 0)
  let z_max := z_coords.foldl max (z_coords.headD 0)
  let z_mid := (z_min + z_max) / 2
  let z_tol := (z_max - z_min) * (5 / 100)
  ((z_coords.zip wss_mag).filter (fun q => |q.1 - z_mid| < z_tol)).map Prod.snd

/-- Small magnitude threshold `1e-10` of
`wall_mask = wss_mid > 1e-10  # exclude interior nodes (zero WSS)`. -/
def wss_threshold : ℚ := 1 / 10 ^ 10

/-- Arithmetic mean of a rational array, `np.mean`. -/
def listMean (xs : List ℚ) : ℚ := xs.sum / (xs.length : ℚ)

/-- The reported `wss_mid_mean`: mean over the above-threshold band points if
any exist, otherwise mean over the whole band. -/
def wss_mid_mean (z_coords wss_mag : List ℚ) : ℚ :=
  let mid := wss_mid_band z_coords wss_mag
  let wall := mid.filter (fun w => wss_threshold < w)
  if wall = [] then listMean mid else listMean wall

/-! ## Regression comparator (scripts/compare_results.py) -/

/-- Convergence data extracted from one JSON log
(`extract_convergence_data`): recorded time-step count, per-time-step solver
iteration counts, and per-field final error norms. -/
structure ConvState where
  time_steps : ℕ
  iterations : List ℕ
  errors : List (String × List ℚ)
deriving DecidableEq

/-- Inner loop of `extract_convergence_data` (lines 84-96) over one field's
per-time-step iteration-error lists, with the running global `iterations`
list and current time-step index `t`: an empty iteration list is a fatal
error; an iteration count is appended only when
`len(convergence_data["iterations"]) <= t`; the last error of each list is
collected as that time step's final error norm. -/
def innerLoop : List ℕ → ℕ → List (List ℚ) → Except String (List ℕ × List ℚ)
  | iters, _, [] => .ok (iters, [])
  | iters, t, it :: rest =>
    if it.isEmpty then .error "Invalid error data"
    else
      match innerLoop (if iters.length ≤ t then iters ++ [it.length] else iters)
          (t + 1) rest with
      | .error e => .error e
      | .ok (itersF, finals) => .ok (itersF, it.getLastD 0 :: finals)

/-- Per-field step of `extract_convergence_data` (lines 69-96): check the
time-step count against the first recorded one, run the inner loop, append
the field's final error norms. -/
def processField (st : ConvState) (f : String × List (List ℚ)) :
    Except String ConvState :=
  if st.time_steps ≠ 0 ∧ st.time_steps ≠ f.2.length then
    .error "Inconsistent time step counts across fields"
  else
    match innerLoop st.iterations 0 f.2 with
    | .error e => .error e
    | .ok (iters, finals) =>
      .ok ⟨if st.time_steps = 0 then f.2.length else st.time_steps,
           iters, st.errors ++ [(f.1, finals)]⟩

/-- The `error` mapping of a log processed field by field in order
(`for field_name, time_step_errors in errors.items()`). -/
def extract_convergence_data (fields : List (String × List (List ℚ))) :
    Except String ConvState :=
  fields.foldlM processField ⟨0, [], []⟩

/-- First check: reference and test must report identical time-step counts
(`compare_time_steps`). -/
def compare_time_steps (ref test : ConvState) : Except String Unit :=
  if ref.time_steps = test.time_steps then .ok ()
  else .error "Time step count mismatch"

/-- Violating time steps collected by `compare_iterations` (lines 123-148):
every `t` in `range(time_steps)` whose iteration counts differ by more than
the integer tolerance. -/
def iter_failures (ref test : ConvState) (tol : ℤ) : List ℕ :=
  (List.range ref.time_steps).filter
    (fun t => tol < |(test.iterations.getD t 0 : ℤ) - (ref.iterations.getD t 0 : ℤ)|)

/-- Second check: all violations are collected before failing; the aggregated
report lists every violating time step. -/
def compare_iterations (ref test : ConvState) (tol : ℤ) :
    Except (List ℕ) Unit :=
  if iter_failures ref test tol = [] then .ok ()
  else .error (iter_failures ref test tol)

/-- Per-entry comparison value of `compare_error_norms` (lines 179-184):
relative difference when the reference value is positive, absolute difference
otherwise (`if ref_err > 0: ... else: ...`). -/
def rel_diff (ref_err test_err : ℚ) : ℚ :=
  if 0 < ref_err then |test_err - ref_err| / ref_err else |test_err - ref_err|

/-- Comparison value following the claim's words: relative difference
`|test - ref| / ref` whenever the reference value is nonzero, absolute
difference only when it is exactly zero.  Kept only to compare with
`rel_diff`, which the source actually computes. -/
def claimed_rel_diff (ref_err test_err : ℚ) : ℚ :=
  if ref_err ≠ 0 then |test_err - ref_err| / ref_err else |test_err - ref_err|

/-- Violating time steps of one field in `compare_error_norms`. -/
def field_norm_failures (refE testE : List ℚ) (n : ℕ) (tol : ℚ) : List ℕ :=
  (List.range n).filter
    (fun t => tol < rel_diff (refE.getD t 0) (testE.getD t 0))

/-- All (field, time step) violations of `compare_error_norms` over the
fields common to both logs. -/
def norm_failures (ref test : ConvState) (tol : ℚ) : List (String × ℕ) :=
  (ref.errors.filter (fun f => (test.errors.lookup f.1).isSome)).flatMap
    (fun f => (field_norm_failures f.2 ((test.errors.lookup f.1).getD [])
        ref.time_steps tol).map (fun t => (f.1, t)))

/-- Third check: error norms within tolerance, aggregated failures. -/
def compare_error_norms (ref test : ConvState) (tol : ℚ) :
    Except (List (String × ℕ)) Unit :=
  if norm_failures ref test tol = [] then .ok ()
  else .error (norm_failures ref test tol)

/-- Exit code of `main` (lines 355-414): the three ordered checks
short-circuit on the first `ComparisonError`; any failure exits 1, success
exits 0. -/
def main_exit (ref test : ConvState) (iter_tol : ℤ) (err_tol : ℚ) : ℕ :=
  match compare_time_steps ref test with
  | .error _ => 1
  | .ok _ =>
    match compare_iterations ref test iter_tol with
    | .error _ => 1
    | .ok _ =>
      match compare_error_norms ref test err_tol with
      | .error _ => 1
      | .ok _ => 0

/-! ## Helper lemmas for the mean -/

theorem zipWith_add_getElem? (a b : List ℚ) (j : ℕ) (ha : j < a.length)
    (hb : j < b.length) :
    (List.zipWith (· + ·) a b)[j]? = some (a.getD j 0 + b.getD j 0) := by
  induction a generalizing b j with
  | nil => simp at ha
  | cons x xs ih =>
    cases b with
    | nil => simp at hb
    | cons y ys =>
      cases j with
      | zero => simp [List.getD]
      | succ k =>
        simp only [List.zipWith_cons_cons, List.getElem?_cons_succ, List.getD_cons_succ]
        exact ih ys k (by simpa using ha) (by simpa using hb)

theorem colSums_length (rows : List (List ℚ)) (n : ℕ) (hne : rows ≠ [])
    (hlen : ∀ r ∈ rows, r.length = n) : (colSums rows).length = n := by
  induction rows with
  | nil => exact absurd rfl hne
  | cons r rs ih =>
    cases rs with
    | nil => simpa [colSums] using hlen r (by simp)
    | cons r2 rs2 =>
      have h1 : r.length = n := hlen r (by simp)
      have h2 : (colSums (r2 :: rs2)).length = n := by
        refine ih (by simp) ?_
        intro x hx
        exact hlen x (List.mem_cons_of_mem r hx)
      simp [colSums, h1, h2]

theorem colSums_getElem? (rows : List (List ℚ)) (n j : ℕ) (hne : rows ≠ [])
    (hlen : ∀ r ∈ rows, r.length = n) (hj : j < n) :
    (colSums rows)[j]? = some ((rows.map (fun r => r.getD j 0)).sum) := by
  induction rows with
  | nil => exact absurd rfl hne
  | cons r rs ih =>
    cases rs with
    | nil =>
      have h1 : r.length = n := hlen r (by simp)
      simp only [colSums, List.map_cons, List.map_nil, List.sum_cons, List.sum_nil, add_zero]
      rw [List.getD_eq_getElem?_getD, List.getElem?_eq_getElem (by omega)]
      simp
    | cons r2 rs2 =>
      have h1 : r.length = n := hlen r (by simp)
      have h2 : (colSums (r2 :: rs2)).length = n :=
        colSums_length _ n (by simp) (fun x hx => hlen x (List.mem_cons_of_mem r hx))
      have h3 : (colSums (r2 :: rs2))[j]? =
          some (((r2 :: rs2).map (fun r => r.getD j 0)).sum) :=
        ih (by simp) (fun x hx => hlen x (List.mem_cons_of_mem r hx))
      have h4 : (List.zipWith (· + ·) r (colSums (r2 :: rs2)))[j]? =
          some (r.getD j 0 + (colSums (r2 :: rs2)).getD j 0) :=
        zipWith_add_getElem? _ _ j (by omega) (by omega)
      have h5 : (colSums (r2 :: rs2)).getD j 0 = ((r2 :: rs2).map (fun r => r.getD j 0)).sum := by
        rw [List.getD_eq_getElem?_getD, h3]; rfl
      simp only [colSums, List.map_cons, List.sum_cons]
      rw [h4, h5]
      simp

theorem mean_axis0_single (r : List ℚ) : mean_axis0 [r] = r := by
  simp [mean_axis0, colSums]

/-- C1: for every (location, field) entry whose values are present in every
retained snapshot, `get_results` produces the elementwise arithmetic mean of
the per-snapshot value arrays over the time axis; a window of exactly one
snapshot returns that snapshot unchanged; and three snapshots with pressure
values [1], [2], [3] at a single point averaged over steps [0,2] inclusive
yield the time-averaged pressure [2]. -/
theorem get_results_time_average (snaps : List (List ℚ)) (start_step n : ℕ)
    (hne : snaps.drop start_step ≠ [])
    (hlen : ∀ r ∈ snaps.drop start_step, r.length = n) :
    ((get_results_field snaps start_step).length = n ∧
      ∀ j, j < n → (get_results_field snaps start_step)[j]? =
        some (((snaps.drop start_step).map (fun r => r.getD j 0)).sum /
              ((snaps.drop start_step).length : ℚ))) ∧
    (∀ r : List ℚ, snaps.drop start_step = [r] →
      get_results_field snaps start_step = r) ∧
    get_results_field [[1], [2], [3]] 0 = [2] := by
  refine ⟨⟨?_, ?_⟩, ?_, ?_⟩
  · simp only [get_results_field, mean_axis0, List.length_map]
    exact colSums_length _ n hne hlen
  · intro j hj
    simp only [get_results_field, mean_axis0, List.getElem?_map]
    rw [colSums_getElem? _ n j hne hlen hj]
    rfl
  · intro r hr
    simp only [get_results_field, hr]
    exact mean_axis0_single r
  · norm_num [get_results_field, mean_axis0, colSums]

theorem get_results_time_average_witness :
    ([[1], [2], [3]] : List (List ℚ)).drop 0 ≠ [] ∧
    get_results_field [[1], [2], [3]] 0 = [2] :=
  ⟨by decide, (get_results_time_average [[1], [2], [3]] 0 1 (by decide) (by decide)).2.2⟩

/-- C3: whenever the caller-supplied start step is at least the number of
snapshots found, `post_process` returns an invalid-configuration error (no
aggregate is computed), and a successful run always has a non-empty averaging
window — an empty average is never silently produced. -/
theorem post_process_start_step_guard (res : List (List ℚ)) (start_step : ℕ) :
    (res.length ≤ start_step → ∃ e, post_process res start_step = .error e) ∧
    (∀ out, post_process res start_step = .ok out →
      start_step < res.length ∧ res.drop start_step ≠ [] ∧
      out = get_results_field res start_step) := by
  constructor
  · intro hle
    by_cases h0 : res.length = 0
    · exact ⟨"No results found", by simp [post_process, h0]⟩
    · exact ⟨"Start step is beyond available steps", by simp [post_process, h0, hle]⟩
  · intro out hout
    simp only [post_process] at hout
    by_cases h0 : res.length = 0
    · simp [h0] at hout
    · by_cases h1 : res.length ≤ start_step
      · simp [h0, h1] at hout
      · push_neg at h1
        refine ⟨h1, ?_, ?_⟩
        · intro hdrop
          have := congrArg List.length hdrop
          simp only [List.length_drop, List.length_nil] at this
          omega
        · simp [h0, not_le.mpr h1] at hout
          exact hout.symm

theorem post_process_start_step_guard_witness :
    ([[1], [2]] : List (List ℚ)).length ≤ 5 ∧
    ∃ e, post_process [[1], [2]] 5 = .error e :=
  ⟨by decide, (post_process_start_step_guard [[1], [2]] 5).1 (by decide)⟩

/-- C4: for a series of length L and positive steps_per_beat P, the heartbeat
overlay produces exactly L / P windows, each of length exactly P, window i
covering samples [i*P, (i+1)*P) of the (unit-scaled) series; only the first
(L / P) * P samples are used, and when L / P = 0 no overlay is produced. -/
theorem heartbeat_overlay_windows (xs : List ℚ) (P : ℕ) (hP : 0 < P) :
    (plot_wss_heartbeat_overlay xs P).length = xs.length / P ∧
    (∀ w ∈ plot_wss_heartbeat_overlay xs P, w.length = P) ∧
    (∀ i, i < xs.length / P →
      (plot_wss_heartbeat_overlay xs P)[i]? =
        some (((xs.map (fun w => w * wss_scale)).drop (i * P)).take P)) ∧
    plot_wss_heartbeat_overlay xs P =
      plot_wss_heartbeat_overlay (xs.take (xs.length / P * P)) P ∧
    (xs.length / P = 0 → plot_wss_heartbeat_overlay xs P = []) := by
  have hlen : (xs.map (fun w => w * wss_scale)).length = xs.length :=
    List.length_map ..
  refine ⟨?_, ?_, ?_, ?_, ?_⟩
  · simp [plot_wss_heartbeat_overlay, heartbeat_windows, hlen]
  · intro w hw
    simp only [plot_wss_heartbeat_overlay, heartbeat_windows, hlen, List.mem_map,
      List.mem_range] at hw
    obtain ⟨i, hi, rfl⟩ := hw
    have hmul : (i + 1) * P ≤ xs.length := (Nat.le_div_iff_mul_le hP).mp hi
    have hexp : (i + 1) * P = i * P + P := Nat.succ_mul i P
    simp only [List.length_take, List.length_drop, hlen]
    omega
  · intro i hi
    simp [plot_wss_heartbeat_overlay, heartbeat_windows, hlen, List.getElem?_map,
      List.getElem?_range hi]
  · have htl : (xs.take (xs.length / P * P)).length = xs.length / P * P := by
      simp only [List.length_take]
      exact Nat.min_eq_left (Nat.div_mul_le_self _ _)
    have hdiv : (xs.take (xs.length / P * P)).length / P = xs.length / P := by
      rw [htl, Nat.mul_div_cancel _ hP]
    simp only [plot_wss_heartbeat_overlay, heartbeat_windows, hlen,
      ← List.map_take, List.length_map, hdiv]
    refine List.map_congr_left ?_
    intro i hi
    rw [List.mem_range] at hi
    have hmul : (i + 1) * P ≤ xs.length := (Nat.le_div_iff_mul_le hP).mp hi
    refine List.ext_getElem? ?_
    intro j
    rw [List.getElem?_take, List.getElem?_take, List.getElem?_drop,
      List.getElem?_drop]
    by_cases hj : j < P
    · simp only [hj, if_true]
      rw [List.getElem?_map, List.getElem?_map, List.getElem?_take]
      have : i * P + j < xs.length / P * P := by
        have h2 : (i + 1) * P ≤ xs.length / P * P :=
          Nat.mul_le_mul_right P hi
        have hexp : (i + 1) * P = i * P + P := Nat.succ_mul i P
        omega
      simp [this]
    · simp [hj]
  · intro h0
    simp [plot_wss_heartbeat_overlay, heartbeat_windows, hlen, h0, List.range_zero]

theorem heartbeat_overlay_windows_witness :
    0 < 2 ∧ (plot_wss_heartbeat_overlay [1, 2, 3, 4, 5] 2).length = 2 :=
  ⟨by decide, (heartbeat_overlay_windows [1, 2, 3, 4, 5] 2 (by decide)).1.trans rfl⟩

/-- C2: for a key with a wildcard axis, `get_ids` either returns the matched
wildcard-axis coordinates sorted strictly monotonically increasing and
co-indexed with the returned point indices, or raises a data-integrity error
when two matched points share a coordinate value; it never returns a wildcard
coordinate sequence with duplicates. -/
theorem get_ids_sorted_strict_mono (pts : List Coord3) (loc : Loc) (d : Fin 3)
    (htwo : 2 ≤ (wild_pairs pts loc d).length) :
    (∀ ids crds, get_ids_sorted pts loc d = .ok (ids, crds) →
      crds.Sorted (· < ·) ∧ crds.Nodup ∧
      ids = (sort_by_coord (wild_pairs pts loc d)).map Prod.fst ∧
      crds = (sort_by_coord (wild_pairs pts loc d)).map Prod.snd ∧
      (∀ q ∈ sort_by_coord (wild_pairs pts loc d),
        q.2 = proj3 d (pts.getD q.1 (0, 0, 0)))) ∧
    (¬ ((wild_pairs pts loc d).map Prod.snd).Nodup →
      ∃ e, get_ids_sorted pts loc d = .error e) := by
  constructor
  · intro ids crds hok
    simp only [get_ids_sorted] at hok
    by_cases hc : ((wild_pairs pts loc d).map Prod.snd).dedup.length =
        ((wild_pairs pts loc d).map Prod.snd).length
    · rw [if_pos hc] at hok
      simp only [Except.ok.injEq, Prod.mk.injEq] at hok
      obtain ⟨hids, hcrds⟩ := hok
      have hnd : ((wild_pairs pts loc d).map Prod.snd).Nodup :=
        List.dedup_eq_self.mp ((List.dedup_sublist _).eq_of_length hc)
      have hperm : (sort_by_coord (wild_pairs pts loc d)).Perm (wild_pairs pts loc d) :=
        List.perm_insertionSort _ _
      have hnd2 : ((sort_by_coord (wild_pairs pts loc d)).map Prod.snd).Nodup :=
        ((hperm.map Prod.snd).nodup_iff).mpr hnd
      have hsorted : List.Sorted coordLE (sort_by_coord (wild_pairs pts loc d)) :=
        List.sorted_insertionSort coordLE _
      have hle : ((sort_by_coord (wild_pairs pts loc d)).map Prod.snd).Pairwise (· ≤ ·) :=
        hsorted.map Prod.snd (fun _ _ hab => hab)
      have hne : ((sort_by_coord (wild_pairs pts loc d)).map Prod.snd).Pairwise (· ≠ ·) := hnd2
      have hlt : ((sort_by_coord (wild_pairs pts loc d)).map Prod.snd).Pairwise (· < ·) :=
        (hle.and hne).imp (fun h => lt_of_le_of_ne h.1 h.2)
      subst hids hcrds
      refine ⟨hlt, hnd2, rfl, rfl, ?_⟩
      intro q hq
      have hq2 : q ∈ wild_pairs pts loc d := hperm.mem_iff.mp hq
      simp only [wild_pairs, List.mem_map] at hq2
      obtain ⟨i, _, rfl⟩ := hq2
      rfl
    · rw [if_neg hc] at hok
      exact absurd hok (by simp)
  · intro hnotnd
    refine ⟨"coordinates not unique", ?_⟩
    simp only [get_ids_sorted]
    rw [if_neg]
    intro hc
    exact hnotnd (List.dedup_eq_self.mp ((List.dedup_sublist _).eq_of_length hc))

theorem wild_pairs_dup_example :
    wild_pairs [((0 : ℚ), 0, 1), ((0 : ℚ), 0, 1)] (some 0, some 0, none) 2 =
      [(0, 1), (1, 1)] := by
  norm_num [wild_pairs, get_ids_matched, matches_loc, matchSlot, np_isclose,
    List.range_succ, proj3]

theorem get_ids_sorted_strict_mono_witness :
    2 ≤ (wild_pairs [((0 : ℚ), 0, 1), ((0 : ℚ), 0, 1)] (some 0, some 0, none) 2).length ∧
    ∃ e, get_ids_sorted [((0 : ℚ), 0, 1), ((0 : ℚ), 0, 1)] (some 0, some 0, none) 2 =
      .error e :=
  ⟨by rw [wild_pairs_dup_example]; decide,
   (get_ids_sorted_strict_mono [((0 : ℚ), 0, 1), ((0 : ℚ), 0, 1)] (some 0, some 0, none) 2
      (by rw [wild_pairs_dup_example]; decide)).2
    (by rw [wild_pairs_dup_example]; simp)⟩

/-- C5 (amended): `get_ids` selects exactly the point indices whose
cylindrical coordinates match every non-wildcard axis value of the key under
numpy's default `np.isclose` test, i.e. within absolute tolerance 1e-8 plus
relative tolerance 1e-5 times the magnitude of the target value — not within
a tolerance of ~1e-9. -/
theorem get_ids_selection_tolerance (pts : List Coord3) (loc : Loc) (i : ℕ) :
    i ∈ get_ids_matched pts loc ↔
      i < pts.length ∧
      (∀ v, loc.1 = some v →
        |(pts.getD i (0, 0, 0)).1 - v| ≤ 1 / 10 ^ 8 + 1 / 10 ^ 5 * |v|) ∧
      (∀ v, loc.2.1 = some v →
        |(pts.getD i (0, 0, 0)).2.1 - v| ≤ 1 / 10 ^ 8 + 1 / 10 ^ 5 * |v|) ∧
      (∀ v, loc.2.2 = some v →
        |(pts.getD i (0, 0, 0)).2.2 - v| ≤ 1 / 10 ^ 8 + 1 / 10 ^ 5 * |v|) := by
  simp only [get_ids_matched, List.mem_filter, List.mem_range, matches_loc,
    Bool.and_eq_true]
  constructor
  · rintro ⟨hi, ⟨h1, h2⟩, h3⟩
    refine ⟨hi, ?_, ?_, ?_⟩
    · intro v hv; rw [hv] at h1; simpa [matchSlot, np_isclose] using h1
    · intro v hv; rw [hv] at h2; simpa [matchSlot, np_isclose] using h2
    · intro v hv; rw [hv] at h3; simpa [matchSlot, np_isclose] using h3
  · rintro ⟨hi, h1, h2, h3⟩
    refine ⟨hi, ⟨?_, ?_⟩, ?_⟩
    · rcases hl : loc.1 with _ | v
      · simp [matchSlot]
      · simpa [matchSlot, np_isclose] using h1 v hl
    · rcases hl : loc.2.1 with _ | v
      · simp [matchSlot]
      · simpa [matchSlot, np_isclose] using h2 v hl
    · rcases hl : loc.2.2 with _ | v
      · simp [matchSlot]
      · simpa [matchSlot, np_isclose] using h3 v hl

theorem get_ids_selection_tolerance_witness :
    0 ∈ get_ids_matched [((0 : ℚ), 0, 0)] (some 0, some 0, none) :=
  (get_ids_selection_tolerance [((0 : ℚ), 0, 0)] (some 0, some 0, none) 0).mpr
    ⟨by decide,
     fun v hv => by injection hv with h; subst h; norm_num,
     fun v hv => by injection hv with h; subst h; norm_num,
     fun v hv => by exact absurd hv (by simp)⟩

/-- C5 counterexample: a point whose axial coordinate is 5e-9 away from the
key's target 0 is selected by the source's `np.isclose` test (|5e-9| <= 1e-8)
but is rejected by the claimed ~1e-9 relative tolerance, so the claim's
selection rule disagrees with the code. -/
theorem get_ids_tolerance_counterexample :
    get_ids_matched [((0 : ℚ), 0, 5 / 10 ^ 9)] (some 0, some 0, some 0) = [0] ∧
    claimed_get_ids [((0 : ℚ), 0, 5 / 10 ^ 9)] (some 0, some 0, some 0) = [] := by
  constructor
  · norm_num [get_ids_matched, matches_loc, matchSlot, np_isclose,
      List.range_succ, abs_le]
  · norm_num [claimed_get_ids, claimed_matchSlot, claimed_isclose,
      List.range_succ, abs_le]

/-- C6: the wall-shear extraction uses the WSS field reduced to Euclidean
magnitude whenever a WSS array is present; with WSS absent but Traction
present it uses Traction magnitudes; with both absent it produces an all-zero
array at every point and sets the warning flag — and in all three cases it
returns normally, never raising. -/
theorem extract_wss_fallback (snap : SnapArrays) (npts : ℕ) :
    (∀ arr, snap.wss = some arr → extract_wss snap npts = (arr.map norm3, false)) ∧
    (∀ arr, snap.wss = none → snap.traction = some arr →
      extract_wss snap npts = (arr.map norm3, false)) ∧
    (snap.wss = none → snap.traction = none →
      extract_wss snap npts = (List.replicate npts 0, true) ∧
      (extract_wss snap npts).1.length = npts ∧
      ∀ x ∈ (extract_wss snap npts).1, x = 0) := by
  refine ⟨?_, ?_, ?_⟩
  · intro arr h
    simp [extract_wss, h]
  · intro arr h1 h2
    simp [extract_wss, h1, h2]
  · intro h1 h2
    refine ⟨by simp [extract_wss, h1, h2], by simp [extract_wss, h1, h2], ?_⟩
    intro x hx
    simp only [extract_wss, h1, h2] at hx
    exact List.eq_of_mem_replicate hx

theorem extract_wss_fallback_witness :
    (SnapArrays.mk none none).wss = none ∧
    extract_wss ⟨none, none⟩ 3 = (List.replicate 3 0, true) :=
  ⟨rfl, ((extract_wss_fallback ⟨none, none⟩ 3).2.2 rfl rfl).1⟩

/-- C9: whenever at least one point of the 5% axial band around the middle
cross-section has WSS magnitude above the 1e-10 threshold, the reported
`wss_mid_mean` is the mean of the WSS magnitudes over only those
above-threshold band points: sub-threshold points are silently dropped as
interior/non-wall. -/
theorem wss_mid_mean_threshold (z_coords wss_mag : List ℚ) (hz : z_coords ≠ [])
    (hex : ∃ w ∈ wss_mid_band z_coords wss_mag, wss_threshold < w) :
    wss_mid_mean z_coords wss_mag =
      listMean ((wss_mid_band z_coords wss_mag).filter
        (fun w => wss_threshold < w)) := by
  obtain ⟨w, hw, hwt⟩ := hex
  have hne : (wss_mid_band z_coords wss_mag).filter
      (fun w => wss_threshold < w) ≠ [] := by
    intro hnil
    have hmem : w ∈ (wss_mid_band z_coords wss_mag).filter
        (fun w => wss_threshold < w) :=
      List.mem_filter.mpr ⟨hw, by simpa using hwt⟩
    rw [hnil] at hmem
    exact absurd hmem (List.not_mem_nil w)
  simp [wss_mid_mean, hne]

theorem wss_mid_band_example :
    wss_mid_band [0, 1, 2] [5, 7, 9] = [7] := by
  norm_num [wss_mid_band, List.zip, min_def, max_def, abs_lt]

theorem wss_mid_mean_threshold_witness :
    ([0, 1, 2] : List ℚ) ≠ [] ∧
    (∃ w ∈ wss_mid_band [0, 1, 2] [5, 7, 9], wss_threshold < w) ∧
    wss_mid_mean [0, 1, 2] [5, 7, 9] =
      listMean ((wss_mid_band [0, 1, 2] [5, 7, 9]).filter
        (fun w => wss_threshold < w)) :=
  ⟨by simp,
   ⟨7, by rw [wss_mid_band_example]; simp, by norm_num [wss_threshold]⟩,
   wss_mid_mean_threshold [0, 1, 2] [5, 7, 9] (by simp)
     ⟨7, by rw [wss_mid_band_example]; simp, by norm_num [wss_threshold]⟩⟩

/-- C7 (amended): the error-norm check compares `|test - ref| / ref` against
the relative tolerance when the reference value is strictly positive, and
falls back to the absolute difference `|test - ref|` when the reference value
is zero (or negative); a reference norm of exactly 0 against a nonzero test
value involves no division at all.  A time step fails the check exactly when
this comparison value exceeds the tolerance. -/
theorem rel_diff_zero_reference (ref_err test_err : ℚ) (refE testE : List ℚ)
    (n : ℕ) (tol : ℚ) :
    (0 < ref_err → rel_diff ref_err test_err = |test_err - ref_err| / ref_err) ∧
    (ref_err ≤ 0 → rel_diff ref_err test_err = |test_err - ref_err|) ∧
    (ref_err = 0 → rel_diff ref_err test_err = |test_err|) ∧
    (∀ t, t ∈ field_norm_failures refE testE n tol ↔
      t < n ∧ tol < rel_diff (refE.getD t 0) (testE.getD t 0)) := by
  refine ⟨?_, ?_, ?_, ?_⟩
  · intro h
    simp [rel_diff, h]
  · intro h
    simp [rel_diff, not_lt.mpr h]
  · intro h
    simp [rel_diff, h]
  · intro t
    simp [field_norm_failures, List.mem_filter, List.mem_range]

theorem rel_diff_zero_reference_witness :
    (0 : ℚ) = 0 ∧ rel_diff 0 5 = |(5 : ℚ)| :=
  ⟨rfl, (rel_diff_zero_reference 0 5 [] [] 0 0).2.2.1 rfl⟩

/-- C7 counterexample: at a reference norm of -1 and a test norm of 0 the
source compares the absolute difference (1, which exceeds the 10% tolerance)
while the claimed rule, taken at every nonzero reference, compares
`|test - ref| / ref = -1` (which passes); so "nonzero" does not describe the
code — the relative branch is taken only for positive reference values. -/
theorem rel_diff_claim_counterexample :
    rel_diff (-1) 0 = 1 ∧ claimed_rel_diff (-1) 0 = -1 ∧
    (1 / 10 : ℚ) < rel_diff (-1) 0 ∧ ¬ ((1 / 10 : ℚ) < claimed_rel_diff (-1) 0) := by
  norm_num [rel_diff, claimed_rel_diff]

/-- C8: with equal time-step counts, the iteration check fails exactly when
some time step's counts differ by more than the integer tolerance; the
aggregated failure report lists precisely the violating time steps (all of
them, not just the first); and any such failure makes the comparator exit
with code 1. -/
theorem compare_iterations_aggregated (ref test : ConvState) (iter_tol : ℤ)
    (err_tol : ℚ) (hts : ref.time_steps = test.time_steps) :
    ((∃ fs, compare_iterations ref test iter_tol = .error fs) ↔
      ∃ t, t < ref.time_steps ∧
        iter_tol < |(test.iterations.getD t 0 : ℤ) - (ref.iterations.getD t 0 : ℤ)|) ∧
    (∀ fs, compare_iterations ref test iter_tol = .error fs →
      ∀ t, t ∈ fs ↔ (t < ref.time_steps ∧
        iter_tol < |(test.iterations.getD t 0 : ℤ) - (ref.iterations.getD t 0 : ℤ)|)) ∧
    (∀ fs, compare_iterations ref test iter_tol = .error fs →
      main_exit ref test iter_tol err_tol = 1) := by
  have hmem : ∀ t, t ∈ iter_failures ref test iter_tol ↔
      (t < ref.time_steps ∧
        iter_tol < |(test.iterations.getD t 0 : ℤ) - (ref.iterations.getD t 0 : ℤ)|) := by
    intro t
    simp [iter_failures, List.mem_filter, List.mem_range]
  have herr : ∀ fs, compare_iterations ref test iter_tol = .error fs →
      fs = iter_failures ref test iter_tol := by
    intro fs hfs
    by_cases hnil : iter_failures ref test iter_tol = []
    · simp [compare_iterations, hnil] at hfs
    · simp only [compare_iterations, if_neg hnil, Except.error.injEq] at hfs
      exact hfs.symm
  refine ⟨?_, ?_, ?_⟩
  · constructor
    · rintro ⟨fs, hfs⟩
      by_cases hnil : iter_failures ref test iter_tol = []
      · simp [compare_iterations, hnil] at hfs
      · obtain ⟨t, ht⟩ := List.exists_mem_of_ne_nil _ hnil
        exact ⟨t, (hmem t).mp ht⟩
    · rintro ⟨t, ht⟩
      have : t ∈ iter_failures ref test iter_tol := (hmem t).mpr ht
      have hnil : iter_failures ref test iter_tol ≠ [] := List.ne_nil_of_mem this
      exact ⟨iter_failures ref test iter_tol, by simp [compare_iterations, hnil]⟩
  · intro fs hfs t
    rw [herr fs hfs]
    exact hmem t
  · intro fs hfs
    have hct : compare_time_steps ref test = .ok () := by
      simp [compare_time_steps, hts]
    simp [main_exit, hct, hfs]

theorem iter_failures_example :
    iter_failures ⟨2, [5, 5], []⟩ ⟨2, [5, 9], []⟩ 2 = [1] := by decide

theorem compare_iterations_aggregated_witness :
    (⟨2, [5, 5], []⟩ : ConvState).time_steps =
      (⟨2, [5, 9], []⟩ : ConvState).time_steps ∧
    main_exit ⟨2, [5, 5], []⟩ ⟨2, [5, 9], []⟩ 2 (1 / 10) = 1 :=
  ⟨rfl,
   (compare_iterations_aggregated ⟨2, [5, 5], []⟩ ⟨2, [5, 9], []⟩ 2 (1 / 10) rfl).2.2
     [1] (by simp [compare_iterations, iter_failures_example])⟩

theorem innerLoop_first (tse : List (List ℚ)) :
    ∀ (iters : List ℕ) (t : ℕ), iters.length = t → (∀ it ∈ tse, it ≠ []) →
    innerLoop iters t tse =
      .ok (iters ++ tse.map List.length, tse.map (fun it => it.getLastD 0)) := by
  induction tse with
  | nil =>
    intro iters t _ _
    simp [innerLoop]
  | cons it rest ih =>
    intro iters t hlen hne
    have hit : it ≠ [] := hne it (by simp)
    have hle : iters.length ≤ t := le_of_eq hlen
    have hlen2 : (iters ++ [it.length]).length = t + 1 := by
      simp [hlen]
    have hrest : ∀ x ∈ rest, x ≠ [] := fun x hx => hne x (List.mem_cons_of_mem it hx)
    simp only [innerLoop, List.isEmpty_eq_true, hit, if_false, if_pos hle,
      ih (iters ++ [it.length]) (t + 1) hlen2 hrest]
    simp

theorem innerLoop_keep (tse : List (List ℚ)) :
    ∀ (iters : List ℕ) (t : ℕ), tse.length + t ≤ iters.length →
    (∀ it ∈ tse, it ≠ []) →
    innerLoop iters t tse = .ok (iters, tse.map (fun it => it.getLastD 0)) := by
  induction tse with
  | nil =>
    intro iters t _ _
    simp [innerLoop]
  | cons it rest ih =>
    intro iters t hlen hne
    have hit : it ≠ [] := hne it (by simp)
    have hnle : ¬ iters.length ≤ t := by
      simp only [List.length_cons] at hlen
      omega
    have hrest : ∀ x ∈ rest, x ≠ [] := fun x hx => hne x (List.mem_cons_of_mem it hx)
    have hlen2 : rest.length + (t + 1) ≤ iters.length := by
      simp only [List.length_cons] at hlen
      omega
    simp only [innerLoop, List.isEmpty_eq_true, hit, if_false, if_neg hnle,
      ih iters (t + 1) hlen2 hrest]
    simp

theorem processField_first (name : String) (tse : List (List ℚ))
    (hne : ∀ it ∈ tse, it ≠ []) :
    processField ⟨0, [], []⟩ (name, tse) =
      .ok ⟨tse.length, tse.map List.length,
           [(name, tse.map (fun it => it.getLastD 0))]⟩ := by
  have hcond : ¬ ((⟨0, [], []⟩ : ConvState).time_steps ≠ 0 ∧
      (⟨0, [], []⟩ : ConvState).time_steps ≠ tse.length) := by
    simp
  simp only [processField, if_neg hcond,
    innerLoop_first tse [] 0 rfl hne]
  simp

theorem processField_keep (st : ConvState) (name : String) (tse : List (List ℚ))
    (n : ℕ) (hts : st.time_steps = n) (hil : st.iterations.length = n)
    (hlen : tse.length = n) (hne : ∀ it ∈ tse, it ≠ []) :
    processField st (name, tse) =
      .ok ⟨n, st.iterations,
           st.errors ++ [(name, tse.map (fun it => it.getLastD 0))]⟩ := by
  have hcond : ¬ (st.time_steps ≠ 0 ∧ st.time_steps ≠ tse.length) := by
    rw [hts, hlen]
    by_cases h0 : n = 0 <;> simp [h0]
  have hinner : innerLoop st.iterations 0 tse =
      .ok (st.iterations, tse.map (fun it => it.getLastD 0)) := by
    refine innerLoop_keep tse st.iterations 0 ?_ hne
    omega
  have hif : (if st.time_steps = 0 then tse.length else st.time_steps) = n := by
    by_cases h0 : st.time_steps = 0
    · simpa [h0] using hlen
    · simpa [h0] using hts
  simp only [processField, if_neg hcond, hinner, hif]

theorem foldlM_keep (rest : List (String × List (List ℚ))) :
    ∀ (st : ConvState) (n : ℕ), st.time_steps = n → st.iterations.length = n →
    (∀ f ∈ rest, f.2.length = n ∧ ∀ it ∈ f.2, it ≠ []) →
    ∃ errs, List.foldlM processField st rest = .ok ⟨n, st.iterations, errs⟩ := by
  induction rest with
  | nil =>
    intro st n hts _ _
    refine ⟨st.errors, ?_⟩
    simp only [List.foldlM_nil]
    congr 1
    cases st
    simp_all
  | cons f rest2 ih =>
    intro st n hts hil hall
    have hf := hall f (by simp)
    have hstep : processField st f =
        .ok ⟨n, st.iterations,
             st.errors ++ [(f.1, f.2.map (fun it => it.getLastD 0))]⟩ := by
      have := processField_keep st f.1 f.2 n hts hil hf.1 hf.2
      simpa using this
    have hrest : ∀ g ∈ rest2, g.2.length = n ∧ ∀ it ∈ g.2, it ≠ [] :=
      fun g hg => hall g (List.mem_cons_of_mem f hg)
    obtain ⟨errs, herrs⟩ :=
      ih ⟨n, st.iterations, st.errors ++ [(f.1, f.2.map (fun it => it.getLastD 0))]⟩
        n rfl hil hrest
    refine ⟨errs, ?_⟩
    simp only [List.foldlM_cons, hstep]
    exact herrs

/-- C10: the per-time-step iteration counts recorded by
`extract_convergence_data` come only from the first field processed (a count
is appended at time step t only when none has been recorded yet), so two logs
that share their first field extract identical iteration lists no matter how
the later fields' iteration counts differ, and such logs always pass the
iteration check. -/
theorem extract_iterations_first_field_only (name0 : String)
    (tse0 : List (List ℚ)) (rest1 rest2 : List (String × List (List ℚ)))
    (tol : ℤ) (h0 : ∀ it ∈ tse0, it ≠ [])
    (h1 : ∀ f ∈ rest1, f.2.length = tse0.length ∧ ∀ it ∈ f.2, it ≠ [])
    (h2 : ∀ f ∈ rest2, f.2.length = tse0.length ∧ ∀ it ∈ f.2, it ≠ [])
    (htol : 0 ≤ tol) :
    (∃ errs1, extract_convergence_data ((name0, tse0) :: rest1) =
      .ok ⟨tse0.length, tse0.map List.length, errs1⟩) ∧
    (∃ errs2, extract_convergence_data ((name0, tse0) :: rest2) =
      .ok ⟨tse0.length, tse0.map List.length, errs2⟩) ∧
    (∀ out1 out2 : ConvState,
      extract_convergence_data ((name0, tse0) :: rest1) = .ok out1 →
      extract_convergence_data ((name0, tse0) :: rest2) = .ok out2 →
      out1.iterations = out2.iterations ∧
      compare_iterations out1 out2 tol = .ok ()) := by
  have hfirst : ∀ rest : List (String × List (List ℚ)),
      (∀ f ∈ rest, f.2.length = tse0.length ∧ ∀ it ∈ f.2, it ≠ []) →
      ∃ errs, extract_convergence_data ((name0, tse0) :: rest) =
        .ok ⟨tse0.length, tse0.map List.length, errs⟩ := by
    intro rest hrest
    have hstep := processField_first name0 tse0 h0
    obtain ⟨errs, herrs⟩ :=
      foldlM_keep rest
        ⟨tse0.length, tse0.map List.length,
         [(name0, tse0.map (fun it => it.getLastD 0))]⟩
        tse0.length rfl (by simp) hrest
    refine ⟨errs, ?_⟩
    simp only [extract_convergence_data, List.foldlM_cons, hstep]
    exact herrs
  obtain ⟨errs1, herrs1⟩ := hfirst rest1 h1
  obtain ⟨errs2, herrs2⟩ := hfirst rest2 h2
  refine ⟨⟨errs1, herrs1⟩, ⟨errs2, herrs2⟩, ?_⟩
  intro out1 out2 hout1 hout2
  rw [herrs1] at hout1
  rw [herrs2] at hout2
  have e1 : out1 = ⟨tse0.length, tse0.map List.length, errs1⟩ := by
    injection hout1 with h
    exact h.symm
  have e2 : out2 = ⟨tse0.length, tse0.map List.length, errs2⟩ := by
    injection hout2 with h
    exact h.symm
  subst e1
  subst e2
  refine ⟨rfl, ?_⟩
  have hnil : iter_failures ⟨tse0.length, tse0.map List.length, errs1⟩
      ⟨tse0.length, tse0.map List.length, errs2⟩ tol = [] := by
    simp only [iter_failures]
    rw [List.filter_eq_nil_iff]
    intro t _
    simp only [decide_eq_true_eq, not_lt]
    have : ((tse0.map List.length).getD t 0 : ℤ) -
        ((tse0.map List.length).getD t 0 : ℤ) = 0 := by ring
    rw [this]
    simpa using htol
  simp [compare_iterations, hnil]

theorem extract_iterations_first_field_only_witness :
    (∀ it ∈ ([[1], [2, 3]] : List (List ℚ)), it ≠ []) ∧
    ∃ errs1,
      extract_convergence_data
        [("solid", [[1], [2, 3]]), ("fluid", [[4, 5, 6], [7]])] =
        .ok ⟨2, [1, 2], errs1⟩ :=
  ⟨by simp,
   (extract_iterations_first_field_only "solid" [[1], [2, 3]]
      [("fluid", [[4, 5, 6], [7]])] [] 2
      (by simp) (by simp) (by simp) (by decide)).1⟩

end SvFSGe
